import Mathlib

/-!
Verification of the model-assembly and geometry layer of the ae-wavenet
repository, covering `autoencoder_model.py` and `mfcc_inverter.py`.

Both files drive the repository's `vconv` convolutional-geometry module
(`GridRange`, `input_range`, `output_range`, `compute_inputs`), whose source
is not part of the excerpt; those parts are modelled from the specification
(spec sections 3, 4.1-4.3), as marked in the doc comments below.  Everything
else is translated directly from the two Python files.
-/

set_option autoImplicit false

/-- Modelled from the spec: `vconv.GridRange` (spec section 3) — "a contiguous
integer range of timesteps at a given stride"; `lower_bound` is the maximal
representable extent, `sub` the actually-requested sub-extent (the source
accesses it as `.sub[0]` / `.sub[1]`), `stride` the grid stride.  The source
constructs it positionally: `vconv.GridRange((0, 100000), (0, w), 1)`. -/
structure GridRange where
  lower_bound : Int × Int
  sub : Int × Int
  stride : Int
  deriving DecidableEq

/-- Spec section 3: "`sub_length()` returns `sub_range.hi - sub_range.lo`". -/
def GridRange.sub_length (g : GridRange) : Int := g.sub.2 - g.sub.1

/-- Modelled from the spec: a VC node (spec section 4.2) describing one
convolution/upsampling stage.  `lw`/`rw` are the derived padding extents
(`left_wing_size`/`right_wing_size`, summing to `(kernel_size - 1) * dilation`
for a convolution), and `gi`/`go` are the grid spacings of the node's input
and output tensors in absolute timestep units (`go = gi * stride` for a
strided convolution, `gi = go * factor` for an upsampling stage). -/
structure VC where
  lw : Nat
  rw : Nat
  gi : Int
  go : Int
  deriving DecidableEq

/-- Largest multiple of `g` that is `≤ x` (for `0 < g`); used to keep range
boundaries stride-aligned (spec section 4.1: "intersecting/translating a
range against a stride while preserving alignment"). -/
def floorAlign (g x : Int) : Int := g * (x / g)

/-- Smallest multiple of `g` that is `≥ x` (for `0 < g`). -/
def ceilAlign (g x : Int) : Int := -(g * ((-x) / g))

/-- Modelled from the spec: one backward step of the geometry resolver on the
sub-range pair (spec section 4.3, `input_range`): the exact input extent a
stage needs in order to realize the output extent `s`, expressed in the same
absolute coordinates.  The first input element sits `lw` input-grid steps left
of the first output element, and the last input element `rw` steps right of
the last output element, matching the spec formula
`in = (out - 1) * stride + (kernel_size - 1) * dilation + 1`. -/
def bwdSub (v : VC) (s : Int × Int) : Int × Int :=
  (floorAlign v.gi s.1 - v.lw * v.gi,
    ceilAlign v.gi (s.2 - v.go) + v.rw * v.gi + v.gi)

/-- Modelled from the spec: one forward step of the geometry resolver (spec
section 4.3, `output_range`): the largest output extent realizable from the
input extent `s`, matching the spec formula
`out = floor((in - effective_kernel_span) / stride) + 1`. -/
def fwdSub (v : VC) (s : Int × Int) : Int × Int :=
  (ceilAlign v.go (s.1 + v.lw * v.gi),
    floorAlign v.go (s.2 - v.gi - v.rw * v.gi) + v.go)

/-- Modelled from the spec: one backward resolver step on a full `GridRange`
(both `lower_bound` and `sub` are propagated; the result lies on the stage's
input grid). -/
def VC.inputStep (v : VC) (g : GridRange) : GridRange :=
  { lower_bound := bwdSub v g.lower_bound, sub := bwdSub v g.sub, stride := v.gi }

/-- Modelled from the spec: one forward resolver step on a full `GridRange`. -/
def VC.outputStep (v : VC) (g : GridRange) : GridRange :=
  { lower_bound := fwdSub v g.lower_bound, sub := fwdSub v g.sub, stride := v.go }

/-- Modelled from the spec: `vconv.input_range(begin_node, end_node, out)`
(spec section 4.3) — "walks the chain from `end_node` backward to
`begin_node`, at each step applying `input_length`", here over the chain
listed in parent-to-child order. -/
def input_range (chain : List VC) (out : GridRange) : GridRange :=
  chain.foldr VC.inputStep out

/-- Modelled from the spec: `vconv.output_range(begin_node, end_node, inp)`
(spec section 4.3) — forward walk applying `output_length` at each stage. -/
def output_range (chain : List VC) (inp : GridRange) : GridRange :=
  chain.foldl (fun g v => v.outputStep g) inp

/-- Modelled from the spec: `vconv.compute_inputs(node, out)` (spec section
4.3) — backward walk that records the input range at every node of the chain;
element `i` of the result is the `input_gr` stored at node `i`. -/
def compute_inputs : List VC → GridRange → List GridRange
  | [], _ => []
  | v :: rest, out =>
    let rs := compute_inputs rest out
    v.inputStep (rs.headD out) :: rs

/-- Well-formedness of one stage: positive grid spacings, a right wing wide
enough that consecutive output windows overlap or abut
(`go ≤ gi * (rw + 1)`), and spacings related by an integer stride or
upsampling factor. -/
def VC.Wf (v : VC) : Prop :=
  0 < v.gi ∧ 0 < v.go ∧ v.go ≤ v.gi * (v.rw + 1) ∧
    (v.go % v.gi = 0 ∨ v.gi % v.go = 0)

/-- Chain well-formedness from input spacing `g`: every stage is well formed
and consecutive grid spacings agree. -/
def ChainFrom : Int → List VC → Prop
  | _, [] => True
  | g, v :: r => v.gi = g ∧ v.Wf ∧ ChainFrom v.go r

/-- Output grid spacing of a chain whose input spacing is `g`. -/
def chainOut : Int → List VC → Int
  | g, [] => g
  | _, v :: r => chainOut v.go r

/-- `s` lies within `t` (as integer intervals). -/
def within (s t : Int × Int) : Prop := t.1 ≤ s.1 ∧ s.2 ≤ t.2

/-- Backward resolver walk on sub-range pairs (end of chain first). -/
def bwdWalk (chain : List VC) (s : Int × Int) : Int × Int :=
  chain.foldr bwdSub s

/-- Forward resolver walk on sub-range pairs. -/
def fwdWalk (chain : List VC) (s : Int × Int) : Int × Int :=
  chain.foldl (fun t v => fwdSub v t) s

/-- The VC chain topology owned by an `AutoEncoder`, split at the waypoint
nodes used by `_init_geometry` (autoencoder_model.py lines 115-119):
`mfccStage` is `self.encoder.vc['beg'].parent` (the dataset's MFCC stage),
`encStages` the encoder stages up to `vc['end']`, `upsStages` the decoder
upsampling stages up to `vc['last_upsample']`, and `grccStages` the gated
residual stack from `vc['beg_grcc']` to `vc['end_grcc']`. -/
structure AEChains where
  mfccStage : VC
  encStages : List VC
  upsStages : List VC
  grccStages : List VC

/-- The full chain from the MFCC stage down to `end_grcc`. -/
def aeFullChain (ch : AEChains) : List VC :=
  ch.mfccStage :: (ch.encStages ++ ch.upsStages ++ ch.grccStages)

/-- The chain from the MFCC stage to `last_upsample` (prefix of the full
chain ahead of the gated residual stack). -/
def aePreChain (ch : AEChains) : List VC :=
  ch.mfccStage :: (ch.encStages ++ ch.upsStages)

/-- Desired final output window: `do = vconv.GridRange((0, 100000), (0, w), 1)`
(autoencoder_model.py line 122, mfcc_inverter.py line 46). -/
def gdoOf (w : Int) : GridRange :=
  GridRange.mk (0, 100000) (0, w) 1

/-- `di = vconv.input_range(beg_grcc_vc, end_grcc_vc, do)` (line 123). -/
def gdiOf (ch : AEChains) (w : Int) : GridRange :=
  input_range ch.grccStages (gdoOf w)

/-- `ei = vconv.input_range(mfcc_vc, end_grcc_vc, do)` (line 124). -/
def geiOf (ch : AEChains) (w : Int) : GridRange :=
  input_range (aeFullChain ch) (gdoOf w)

/-- `mi = vconv.input_range(mfcc_vc.child, end_grcc_vc, do)` (line 125). -/
def gmiOf (ch : AEChains) (w : Int) : GridRange :=
  input_range (ch.encStages ++ ch.upsStages ++ ch.grccStages) (gdoOf w)

/-- `eo = vconv.output_range(mfcc_vc, end_enc_vc, ei)` (line 126). -/
def geoOf (ch : AEChains) (w : Int) : GridRange :=
  output_range (ch.mfccStage :: ch.encStages) (geiOf ch w)

/-- `uo = vconv.output_range(mfcc_vc, end_ups_vc, ei)` (line 127). -/
def guoOf (ch : AEChains) (w : Int) : GridRange :=
  output_range (aePreChain ch) (geiOf ch w)

/-- The derived lengths and trim tensors stored by `_init_geometry`
(autoencoder_model.py lines 130-149); a trim tensor is an offset pair. -/
structure AEGeometry where
  enc_in_len : Int
  enc_in_mel_len : Int
  embed_len : Int
  dec_in_len : Int
  trim_dec_in : Int × Int
  trim_ups_out : Int × Int
  trim_dec_out : Int × Int
  deriving DecidableEq

/-- `AutoEncoder._init_geometry(batch_win_size)` (autoencoder_model.py lines
98-149), as a pure function of the VC chain topology and the window size. -/
def AutoEncoder.init_geometry (ch : AEChains) (w : Int) : AEGeometry :=
  let gdo := gdoOf w
  let gdi := input_range ch.grccStages gdo
  let gei := input_range (aeFullChain ch) gdo
  let gmi := input_range (ch.encStages ++ ch.upsStages ++ ch.grccStages) gdo
  let geo := output_range (ch.mfccStage :: ch.encStages) gei
  let guo := output_range (aePreChain ch) gei
  { enc_in_len := gei.sub_length
    enc_in_mel_len := gmi.sub_length
    embed_len := geo.sub_length
    dec_in_len := gdi.sub_length
    trim_dec_in := (gdi.sub.1 - gei.sub.1, gdi.sub.2 - gei.sub.1)
    trim_ups_out := (gdi.sub.1 - guo.sub.1, gdi.sub.2 - guo.sub.1)
    trim_dec_out := (gdo.sub.1 - gdi.sub.1, gdo.sub.2 - gdi.sub.1) }

/-- Mutable state of an `AutoEncoder` relevant to geometry: the immutable VC
chain topology plus the fields `_init_geometry` assigns (`None` before
`post_init` runs). -/
structure AEState where
  chains : AEChains
  geometry : Option AEGeometry

/-- Running `_init_geometry` on an `AutoEncoder`: recomputes every derived
length and trim tensor from the chain topology and stores them. -/
def AutoEncoder.updateGeometry (m : AEState) (w : Int) : AEState :=
  { m with geometry := some (AutoEncoder.init_geometry m.chains w) }

/-- The VC chain topology owned by an `MfccInverter`'s WaveNet
(mfcc_inverter.py lines 47-57): `mfccStage` is `self.wavenet.vc['beg'].parent`,
`midStages` the (upsampling) stages between `mfcc_vc.child` and `beg_grcc_vc`,
and `grccStages` the gated residual stack. -/
structure MIChains where
  mfccStage : VC
  midStages : List VC
  grccStages : List VC

/-- The full chain from the MFCC stage down to `end_grcc`. -/
def miFullChain (ch : MIChains) : List VC :=
  ch.mfccStage :: (ch.midStages ++ ch.grccStages)

/-- Derived lengths and trim tensors stored by `MfccInverter._init_geometry`
(mfcc_inverter.py lines 45-71). -/
structure MIGeometry where
  enc_in_len : Int
  enc_in_mel_len : Int
  embed_len : Int
  dec_in_len : Int
  trim_dec_in : Int × Int
  trim_ups_out : Int × Int
  trim_dec_out : Int × Int
  deriving DecidableEq

/-- `MfccInverter._init_geometry(batch_win_size)` (mfcc_inverter.py lines
45-71).  `compute_inputs(end_vc, end_gr)` stores an `input_gr` at every node;
`in_len()` of a node is the `sub_length` of its stored `input_gr`, `di` is
`beg_grcc_vc.input_gr` and `wi` is `mfcc_vc.input_gr`. -/
def MfccInverter.init_geometry (ch : MIChains) (w : Int) : MIGeometry :=
  let end_gr := gdoOf w
  let grs := compute_inputs (miFullChain ch) end_gr
  let gwi := grs.getD 0 end_gr
  let gmi := grs.getD 1 end_gr
  let gdi := grs.getD (1 + ch.midStages.length) end_gr
  { enc_in_len := gwi.sub_length
    enc_in_mel_len := gmi.sub_length
    embed_len := gmi.sub_length
    dec_in_len := gdi.sub_length
    trim_dec_in := (gdi.sub.1 - gwi.sub.1, gdi.sub.2 - gwi.sub.1)
    trim_dec_out := (end_gr.sub.1 - gdi.sub.1, end_gr.sub.2 - gdi.sub.1)
    trim_ups_out := (0, gdi.sub_length) }

/-- Mutable state of an `MfccInverter` relevant to geometry: the chain
topology, the `input_gr` ranges `compute_inputs` stores on the nodes, and the
derived geometry fields. -/
structure MIState where
  chains : MIChains
  inputGrs : List GridRange
  geometry : Option MIGeometry

/-- Running `MfccInverter._init_geometry`: stores the per-node input ranges
and the derived lengths and trims, all recomputed from the chain topology and
window size. -/
def MfccInverter.updateGeometry (m : MIState) (w : Int) : MIState :=
  { m with
    inputGrs := compute_inputs (miFullChain m.chains) (gdoOf w)
    geometry := some (MfccInverter.init_geometry m.chains w) }

/-- Modelled from the spec: the upsampled local-conditioning tensor the
inverter's WaveNet produces from its mel input before `trim_ups_out` slices
it — the achievable output range of the upsampling stages given the mel
input range (spec sections 4.3-4.4: over-production, then trim). -/
def miLcOut (ch : MIChains) (w : Int) : GridRange :=
  output_range ch.midStages
    (input_range (ch.midStages ++ ch.grccStages) (gdoOf w))

/-- Python errors that `autoencoder_model.py` can surface during assembly or
codebook initialization.  `nameError s` models Python raising `NameError`
because the name `s` is unbound in the enclosing scopes. -/
inductive PyError where
  | nameError : String → PyError
  | runtimeError : String → PyError
  deriving DecidableEq

/-- The four bottleneck variants `AutoEncoder._initialize` can assemble
(autoencoder_model.py lines 62-80). -/
inductive Bottleneck where
  | vqvae
  | vqvaeEma
  | vae
  | ae
  deriving DecidableEq

/-- The bottleneck dispatch of `AutoEncoder._initialize` (autoencoder_model.py
lines 57-83).  The final `else` branch executes `raise InvalidArgument(...)`;
the name `InvalidArgument` is neither defined in the module nor imported, so
evaluating it raises `NameError("name InvalidArgument is not defined")`
instead of the intended configuration error. -/
def selectBottleneck (bn_type : String) : Except PyError Bottleneck :=
  if bn_type = "vqvae" then .ok .vqvae
  else if bn_type = "vqvae-ema" then .ok .vqvaeEma
  else if bn_type = "vae" then .ok .vae
  else if bn_type = "ae" then .ok .ae
  else .error (.nameError "InvalidArgument")

/-- The state of an `AutoEncoder` relevant to `init_codebook`
(autoencoder_model.py lines 174-202): the bottleneck type string, the
codebook tensor `bn.emb` (a list of `n_codes` rows of width `k`), the EMA
accumulators, and the composite map from one data batch to the flattened
encoder-output rows `ze.permute(0, 2, 1).flatten(0, 1)` (encoder and
`bottleneck.linear` are external network code, carried as a function). -/
structure AEModel (μ : Type) where
  bn_type : String
  emb : List (List Rat)
  ema_numer : List (List Rat)
  ema_denom : List Rat
  n_sum_ones : List Rat
  ema_gamma_comp : Rat
  encRows : μ → List (List Rat)

/-- The sampling loop of `init_codebook` (autoencoder_model.py lines
187-195): `while e != n_samples:` draw the next batch, take
`c = min(n_samples - e, rows)` of its rows and append them.  `fuel` bounds
the number of iterations so the loop is expressible as a total function;
`none` means the loop has not terminated within `fuel` iterations. -/
def codebookLoop {μ : Type} (f : μ → List (List Rat)) (src : Nat → μ) (n : Nat) :
    Nat → Nat → List (List Rat) → Option (List (List Rat))
  | fuel, i, acc =>
    if acc.length = n then some acc
    else
      match fuel with
      | 0 => none
      | fuel' + 1 =>
        let zs := f (src i)
        let c := min (n - acc.length) zs.length
        codebookLoop f src n fuel' (i + 1) (acc ++ zs.take c)

/-- Result of running a Python procedure that can also fail to terminate. -/
inductive RunResult (α : Type) where
  | ok : α → RunResult α
  | raised : PyError → RunResult α
  | hang : RunResult α
  deriving DecidableEq

/-- `AutoEncoder.init_codebook(data_source, n_samples)` (autoencoder_model.py
lines 174-202).  Checks the bottleneck type first and raises before touching
the data source; otherwise drains `n_samples` rows through the encoder,
runs k-means (`kmeansF`, scipy's seeded `kmeans`, carried as a function),
overwrites the codebook `bn.emb[...] = km`, and for `vqvae-ema` refreshes the
EMA accumulators (lines 200-202). -/
def init_codebook {μ : Type} (m : AEModel μ) (src : Nat → μ) (n_samples : Nat)
    (kmeansF : List (List Rat) → Nat → List (List Rat)) (fuel : Nat) :
    RunResult (AEModel μ) :=
  if m.bn_type ≠ "vqvae" ∧ m.bn_type ≠ "vqvae-ema" then
    .raised (.runtimeError "init_vq_embed only applies to the vqvae model type")
  else
    match codebookLoop m.encRows src n_samples fuel 0 [] with
    | none => .hang
    | some samples =>
      let n_codes := m.emb.length
      let km := kmeansF samples n_codes
      let m' := { m with emb := km }
      if m.bn_type = "vqvae-ema" then
        .ok { m' with
          ema_numer := km.map (fun r => r.map (fun x => x * m.ema_gamma_comp))
          ema_denom := m.n_sum_ones.map (fun x => x * m.ema_gamma_comp) }
      else .ok m'

/-- The state returned by `AutoEncoder.__getstate__` (autoencoder_model.py
lines 161-166): a dict containing only `init_args`; the `state_dict` entry of
learned parameters is commented out. -/
structure AESaved (σ : Type) where
  init_args : σ

/-- A live `AutoEncoder`: the constructor-configuration dict `init_args` plus
the assembled components (encoder, bottleneck, objective, decoder — the VC
chain and all learned parameters), abstracted as `τ`. -/
structure AEFull (σ τ : Type) where
  init_args : σ
  components : τ

/-- `AutoEncoder.__getstate__` (lines 161-166). -/
def AutoEncoder.getstate {σ τ : Type} (m : AEFull σ τ) : AESaved σ :=
  ⟨m.init_args⟩

/-- `AutoEncoder.__setstate__` (lines 168-171): installs `init_args` and
replays `_initialize` (`initF`), rebuilding the components from scratch;
`load_state_dict` is commented out, so no learned weights are restored. -/
def AutoEncoder.setstate {σ τ : Type} (initF : σ → τ) (s : AESaved σ) : AEFull σ τ :=
  ⟨s.init_args, initF s.init_args⟩

/-- The state returned by `MfccInverter.__getstate__` (mfcc_inverter.py lines
85-90): only `init_args`. -/
structure MISaved (σ : Type) where
  init_args : σ

/-- A live `MfccInverter`: `init_args` plus assembled components. -/
structure MIFull (σ τ : Type) where
  init_args : σ
  components : τ

/-- `MfccInverter.__getstate__` (lines 85-90). -/
def MfccInverter.getstate {σ τ : Type} (m : MIFull σ τ) : MISaved σ :=
  ⟨m.init_args⟩

/-- `MfccInverter.__setstate__` (lines 92-95): replays `_initialize`. -/
def MfccInverter.setstate {σ τ : Type} (initF : σ → τ) (s : MISaved σ) : MIFull σ τ :=
  ⟨s.init_args, initF s.init_args⟩

/-- One batch drawn from the data source as consumed by `run`: the named
tensor fields, with the trailing (timestep) dimension modelled as a list for
one batch channel. -/
structure VBatch where
  wav_dec_input : List Rat
  mel_enc_input : List Rat
  voice_index : Nat
  jitter_index : List Nat

/-- `AutoEncoder.run(vbatch)` (autoencoder_model.py lines 230-265), restricted
to the `(pred, target)` pair it returns: `wav_onehot_dec = preprocess(...)`
(one-hot per timestep, `oneHot`), `wav_batch_out =
wav_dec_input[:, trim[0]:trim[1]]` with `trim = trim_dec_out`, `quant =
forward(...)` (the network, carried as the function `decF`), and `pred,
target = quant[..., :-1], wav_batch_out[..., 1:]`.  The loss and
gradient-metric plumbing after the pair is built is not modelled. -/
def AutoEncoder.run (g : AEGeometry) (decF : List (List Rat) → List Rat)
    (oneHot : Rat → List Rat) (vb : VBatch) : List Rat × List Rat :=
  let wav_onehot_dec := vb.wav_dec_input.map oneHot
  let wav_batch_out := (vb.wav_dec_input.drop g.trim_dec_out.1.toNat).take
    (g.trim_dec_out.2.toNat - g.trim_dec_out.1.toNat)
  let quant := decF wav_onehot_dec
  (quant.dropLast, wav_batch_out.drop 1)

/-- `MfccInverter.run(vbatch)` (mfcc_inverter.py lines 103-122), restricted to
the `(pred, target)` pair, exactly as in `AutoEncoder.run`. -/
def MfccInverter.run (g : MIGeometry) (decF : List (List Rat) → List Rat)
    (oneHot : Rat → List Rat) (vb : VBatch) : List Rat × List Rat :=
  let wav_onehot_dec := vb.wav_dec_input.map oneHot
  let wav_batch_out := (vb.wav_dec_input.drop g.trim_dec_out.1.toNat).take
    (g.trim_dec_out.2.toNat - g.trim_dec_out.1.toNat)
  let quant := decF wav_onehot_dec
  (quant.dropLast, wav_batch_out.drop 1)

theorem floorAlign_le {g : Int} (hg : 0 < g) (x : Int) : floorAlign g x ≤ x := by
  have h := Int.ediv_add_emod x g
  have hm : 0 ≤ x % g := Int.emod_nonneg x (by omega)
  unfold floorAlign
  omega

theorem le_ceilAlign {g : Int} (hg : 0 < g) (x : Int) : x ≤ ceilAlign g x := by
  have h := floorAlign_le hg (-x)
  unfold floorAlign at h
  unfold ceilAlign
  omega

theorem dvd_floorAlign (g x : Int) : g ∣ floorAlign g x := ⟨x / g, rfl⟩

theorem dvd_ceilAlign (g x : Int) : g ∣ ceilAlign g x := by
  unfold ceilAlign
  exact (dvd_neg).mpr ⟨(-x) / g, rfl⟩

theorem floorAlign_of_dvd {g x : Int} (h : g ∣ x) : floorAlign g x = x :=
  Int.mul_ediv_cancel' h

theorem ceilAlign_of_dvd {g x : Int} (h : g ∣ x) : ceilAlign g x = x := by
  unfold ceilAlign
  have : g * ((-x) / g) = -x := Int.mul_ediv_cancel' (Dvd.dvd.neg_right h)
  omega

theorem floorAlign_mono {g x y : Int} (hg : 0 < g) (h : x ≤ y) :
    floorAlign g x ≤ floorAlign g y := by
  unfold floorAlign
  exact mul_le_mul_of_nonneg_left (Int.ediv_le_ediv hg h) (le_of_lt hg)

theorem ceilAlign_mono {g x y : Int} (hg : 0 < g) (h : x ≤ y) :
    ceilAlign g x ≤ ceilAlign g y := by
  unfold ceilAlign
  have := floorAlign_mono hg (neg_le_neg h)
  unfold floorAlign at this
  omega

theorem le_floorAlign {g x y : Int} (hg : 0 < g) (hy : g ∣ y) (h : y ≤ x) :
    y ≤ floorAlign g x := by
  calc y = floorAlign g y := (floorAlign_of_dvd hy).symm
  _ ≤ floorAlign g x := floorAlign_mono hg h

theorem ceilAlign_le {g x y : Int} (hg : 0 < g) (hy : g ∣ y) (h : x ≤ y) :
    ceilAlign g x ≤ y := by
  calc ceilAlign g x ≤ ceilAlign g y := ceilAlign_mono hg h
  _ = y := ceilAlign_of_dvd hy

theorem within_refl (s : Int × Int) : within s s := ⟨le_refl _, le_refl _⟩

theorem within_trans {s t u : Int × Int} (h1 : within s t) (h2 : within t u) :
    within s u := ⟨le_trans h2.1 h1.1, le_trans h1.2 h2.2⟩

theorem chainFrom_append {g : Int} {a b : List VC} :
    ChainFrom g (a ++ b) ↔ ChainFrom g a ∧ ChainFrom (chainOut g a) b := by
  induction a generalizing g with
  | nil => simp [ChainFrom, chainOut]
  | cons v r ih =>
    rw [List.cons_append]
    simp only [ChainFrom, chainOut]
    rw [ih]
    tauto

theorem chainOut_append (g : Int) (a b : List VC) :
    chainOut g (a ++ b) = chainOut (chainOut g a) b := by
  induction a generalizing g with
  | nil => rfl
  | cons v r ih => simp [chainOut, ih]

/-- A backward resolver step widens the covered extent: the inputs a stage
needs cover the extent of the outputs it produces. -/
theorem bwdSub_within {v : VC} (hv : v.Wf) (s : Int × Int) :
    within s (bwdSub v s) := by
  obtain ⟨hgi, hgo, hrw, _⟩ := hv
  constructor
  · have h1 := floorAlign_le hgi s.1
    have h2 : (0 : Int) ≤ v.lw * v.gi := by positivity
    unfold bwdSub
    omega
  · have h1 := le_ceilAlign hgi (s.2 - v.go)
    have h2 : v.go ≤ v.gi * (v.rw + 1) := hrw
    unfold bwdSub
    push_cast
    push_cast at h2
    nlinarith

/-- The result of a backward step is aligned to the stage's input grid. -/
theorem bwdSub_aligned (v : VC) (s : Int × Int) :
    v.gi ∣ (bwdSub v s).1 ∧ v.gi ∣ (bwdSub v s).2 := by
  unfold bwdSub
  constructor
  · exact dvd_sub (dvd_floorAlign _ _) (Dvd.dvd.mul_left dvd_rfl _)
  · exact dvd_add (dvd_add (dvd_ceilAlign _ _) (Dvd.dvd.mul_left dvd_rfl _)) dvd_rfl

/-- A forward resolver step is monotone with respect to interval inclusion. -/
theorem fwdSub_mono {v : VC} (hv : v.Wf) {s t : Int × Int} (h : within s t) :
    within (fwdSub v s) (fwdSub v t) := by
  obtain ⟨hgi, hgo, _, _⟩ := hv
  constructor
  · exact ceilAlign_mono hgo (by have := h.1; omega)
  · have := floorAlign_mono hgo (show s.2 - v.gi - v.rw * v.gi ≤ t.2 - v.gi - v.rw * v.gi by have := h.2; omega)
    unfold fwdSub
    omega

/-- Round trip through one stage: the outputs realizable from the inputs that
the stage requires cover the originally requested outputs (spec section 8:
"over-production is never a deficit").  Needs the requested extent to be
aligned to the stage's output grid. -/
theorem fwdSub_bwdSub {v : VC} (hv : v.Wf) {s : Int × Int}
    (ha1 : v.go ∣ s.1) (ha2 : v.go ∣ s.2) :
    within s (fwdSub v (bwdSub v s)) := by
  obtain ⟨hgi, hgo, _, _⟩ := hv
  constructor
  · show (fwdSub v (bwdSub v s)).1 ≤ s.1
    have hfl : floorAlign v.gi s.1 ≤ s.1 := floorAlign_le hgi s.1
    have harg : floorAlign v.gi s.1 - (v.lw : Int) * v.gi + (v.lw : Int) * v.gi
        = floorAlign v.gi s.1 := by ring
    have : (fwdSub v (bwdSub v s)).1 = ceilAlign v.go (floorAlign v.gi s.1) := by
      unfold fwdSub bwdSub
      rw [harg]
    rw [this]
    exact ceilAlign_le hgo ha1 hfl
  · show s.2 ≤ (fwdSub v (bwdSub v s)).2
    have hcl : s.2 - v.go ≤ ceilAlign v.gi (s.2 - v.go) := le_ceilAlign hgi _
    have hd : v.go ∣ s.2 - v.go := dvd_sub ha2 dvd_rfl
    have harg : ceilAlign v.gi (s.2 - v.go) + (v.rw : Int) * v.gi + v.gi - v.gi
        - (v.rw : Int) * v.gi = ceilAlign v.gi (s.2 - v.go) := by ring
    have : (fwdSub v (bwdSub v s)).2
        = floorAlign v.go (ceilAlign v.gi (s.2 - v.go)) + v.go := by
      unfold fwdSub bwdSub
      rw [harg]
    rw [this]
    have := le_floorAlign hgo hd hcl
    omega

theorem input_range_sub (c : List VC) (g : GridRange) :
    (input_range c g).sub = bwdWalk c g.sub := by
  induction c with
  | nil => rfl
  | cons v r ih =>
    show bwdSub v (input_range r g).sub = bwdSub v (bwdWalk r g.sub)
    rw [ih]

theorem output_range_sub (c : List VC) (g : GridRange) :
    (output_range c g).sub = fwdWalk c g.sub := by
  induction c generalizing g with
  | nil => rfl
  | cons v r ih =>
    show (output_range r (v.outputStep g)).sub = fwdWalk r (fwdSub v g.sub)
    rw [ih]
    rfl

theorem compute_inputs_headD (c : List VC) (out : GridRange) :
    (compute_inputs c out).headD out = input_range c out := by
  induction c with
  | nil => rfl
  | cons v r ih =>
    show v.inputStep ((compute_inputs r out).headD out) = input_range (v :: r) out
    rw [ih]
    rfl

theorem compute_inputs_getD (c : List VC) (out : GridRange) (i : Nat) :
    (compute_inputs c out).getD i out = input_range (c.drop i) out := by
  induction c generalizing i with
  | nil => cases i <;> rfl
  | cons v r ih =>
    cases i with
    | zero =>
      show v.inputStep ((compute_inputs r out).headD out) = input_range (v :: r) out
      rw [compute_inputs_headD]
      rfl
    | succ n =>
      show (compute_inputs r out).getD n out = input_range (r.drop n) out
      exact ih n

/-- The whole backward walk widens the covered extent (the required input
range of a chain covers the requested output range). -/
theorem bwdWalk_within {g : Int} {c : List VC} (hc : ChainFrom g c) (s : Int × Int) :
    within s (bwdWalk c s) := by
  induction c generalizing g s with
  | nil => exact within_refl s
  | cons v r ih =>
    obtain ⟨hgi, hv, hr⟩ := hc
    exact within_trans (ih hr s) (bwdSub_within hv (bwdWalk r s))

/-- A nonempty backward walk lands on the chain's input grid. -/
theorem bwdWalk_aligned {g : Int} {c : List VC} (hc : ChainFrom g c) (hne : c ≠ [])
    (s : Int × Int) : g ∣ (bwdWalk c s).1 ∧ g ∣ (bwdWalk c s).2 := by
  cases c with
  | nil => exact absurd rfl hne
  | cons v r =>
    obtain ⟨hgi, _, _⟩ := hc
    have h := bwdSub_aligned v (bwdWalk r s)
    rw [hgi] at h
    exact h

theorem fwdWalk_mono {g : Int} {c : List VC} (hc : ChainFrom g c) {s t : Int × Int}
    (h : within s t) : within (fwdWalk c s) (fwdWalk c t) := by
  induction c generalizing g s t with
  | nil => exact h
  | cons v r ih =>
    obtain ⟨hgi, hv, hr⟩ := hc
    exact ih hr (fwdSub_mono hv h)

/-- Round trip through a whole chain: walking backward from a requested range
and then forward again yields a range covering the request (spec section 8:
`input_range` followed by `output_range` is a superset of the request). -/
theorem fwdWalk_bwdWalk {g : Int} {c : List VC} (hc : ChainFrom g c) {s : Int × Int}
    (ha1 : chainOut g c ∣ s.1) (ha2 : chainOut g c ∣ s.2) :
    within s (fwdWalk c (bwdWalk c s)) := by
  induction c generalizing g s with
  | nil => exact within_refl s
  | cons v r ih =>
    obtain ⟨hgi, hv, hr⟩ := hc
    have hz : v.go ∣ (bwdWalk r s).1 ∧ v.go ∣ (bwdWalk r s).2 := by
      cases r with
      | nil => exact ⟨ha1, ha2⟩
      | cons w r' =>
        obtain ⟨hwgi, hw, hr'⟩ := hr
        have h := bwdSub_aligned w (bwdWalk r' s)
        rw [hwgi] at h
        exact h
    have h1 : within (bwdWalk r s) (fwdSub v (bwdSub v (bwdWalk r s))) :=
      fwdSub_bwdSub hv hz.1 hz.2
    have h2 := fwdWalk_mono hr h1
    have h3 := ih hr ha1 ha2
    exact within_trans h3 h2

/-- The `di` range of the inverter (`beg_grcc_vc.input_gr`). -/
theorem mi_gdi_eq (ch : MIChains) (w : Int) :
    (compute_inputs (miFullChain ch) (gdoOf w)).getD (1 + ch.midStages.length)
      (gdoOf w) = input_range ch.grccStages (gdoOf w) := by
  rw [compute_inputs_getD]
  congr 1
  show (ch.mfccStage :: (ch.midStages ++ ch.grccStages)).drop (1 + ch.midStages.length)
      = ch.grccStages
  rw [Nat.add_comm]
  simp [List.drop_append]

theorem bwdWalk_append (a b : List VC) (s : Int × Int) :
    bwdWalk (a ++ b) s = bwdWalk a (bwdWalk b s) := by
  simp [bwdWalk, List.foldr_append]

theorem fwdWalk_append (a b : List VC) (s : Int × Int) :
    fwdWalk (a ++ b) s = fwdWalk b (fwdWalk a s) := by
  simp [fwdWalk, List.foldl_append]

theorem ae_full_eq (ch : AEChains) :
    aeFullChain ch = aePreChain ch ++ ch.grccStages := rfl

/-- Bounds of the three `AutoEncoder` trim tensors, for a well-formed chain
and a nonnegative window. -/
theorem ae_trim_bounds {ch : AEChains} {w : Int}
    (hch : ChainFrom 1 (aeFullChain ch)) (hg : ch.grccStages ≠ []) (hw : 0 ≤ w) :
    (0 ≤ (AutoEncoder.init_geometry ch w).trim_dec_in.1 ∧
      (AutoEncoder.init_geometry ch w).trim_dec_in.1 ≤
        (AutoEncoder.init_geometry ch w).trim_dec_in.2 ∧
      (AutoEncoder.init_geometry ch w).trim_dec_in.2 ≤
        (AutoEncoder.init_geometry ch w).enc_in_len) ∧
    (0 ≤ (AutoEncoder.init_geometry ch w).trim_ups_out.1 ∧
      (AutoEncoder.init_geometry ch w).trim_ups_out.1 ≤
        (AutoEncoder.init_geometry ch w).trim_ups_out.2 ∧
      (AutoEncoder.init_geometry ch w).trim_ups_out.2 ≤ (guoOf ch w).sub_length) ∧
    (0 ≤ (AutoEncoder.init_geometry ch w).trim_dec_out.1 ∧
      (AutoEncoder.init_geometry ch w).trim_dec_out.1 ≤
        (AutoEncoder.init_geometry ch w).trim_dec_out.2 ∧
      (AutoEncoder.init_geometry ch w).trim_dec_out.2 ≤
        (AutoEncoder.init_geometry ch w).dec_in_len) := by
  rw [ae_full_eq] at hch
  obtain ⟨hpre, hgrcc⟩ := chainFrom_append.mp hch
  have h1 := bwdWalk_within hgrcc ((0 : Int), w)
  have h1a : (bwdWalk ch.grccStages ((0 : Int), w)).1 ≤ 0 := h1.1
  have h1b : w ≤ (bwdWalk ch.grccStages ((0 : Int), w)).2 := h1.2
  have halign := bwdWalk_aligned hgrcc hg ((0 : Int), w)
  have h2 := bwdWalk_within hpre (bwdWalk ch.grccStages ((0 : Int), w))
  have h3 := fwdWalk_bwdWalk hpre halign.1 halign.2
  have egdi : (gdiOf ch w).sub = bwdWalk ch.grccStages ((0 : Int), w) :=
    input_range_sub ch.grccStages (gdoOf w)
  have egei : (geiOf ch w).sub
      = bwdWalk (aePreChain ch) (bwdWalk ch.grccStages ((0 : Int), w)) := by
    show (input_range (aeFullChain ch) (gdoOf w)).sub = _
    rw [input_range_sub, ae_full_eq, bwdWalk_append]
    rfl
  have eguo : (guoOf ch w).sub
      = fwdWalk (aePreChain ch)
        (bwdWalk (aePreChain ch) (bwdWalk ch.grccStages ((0 : Int), w))) := by
    show (output_range (aePreChain ch) (geiOf ch w)).sub = _
    rw [output_range_sub, egei]
  refine ⟨⟨?_, ?_, ?_⟩, ⟨?_, ?_, ?_⟩, ⟨?_, ?_, ?_⟩⟩
  · show 0 ≤ (gdiOf ch w).sub.1 - (geiOf ch w).sub.1
    rw [egdi, egei]
    have := h2.1
    omega
  · show (gdiOf ch w).sub.1 - (geiOf ch w).sub.1
      ≤ (gdiOf ch w).sub.2 - (geiOf ch w).sub.1
    rw [egdi, egei]
    omega
  · show (gdiOf ch w).sub.2 - (geiOf ch w).sub.1
      ≤ (geiOf ch w).sub.2 - (geiOf ch w).sub.1
    rw [egdi, egei]
    have := h2.2
    omega
  · show 0 ≤ (gdiOf ch w).sub.1 - (guoOf ch w).sub.1
    rw [egdi, eguo]
    have := h3.1
    omega
  · show (gdiOf ch w).sub.1 - (guoOf ch w).sub.1
      ≤ (gdiOf ch w).sub.2 - (guoOf ch w).sub.1
    rw [egdi, eguo]
    omega
  · show (gdiOf ch w).sub.2 - (guoOf ch w).sub.1
      ≤ (guoOf ch w).sub.2 - (guoOf ch w).sub.1
    rw [egdi, eguo]
    have := h3.2
    omega
  · show 0 ≤ 0 - (gdiOf ch w).sub.1
    rw [egdi]
    omega
  · show 0 - (gdiOf ch w).sub.1 ≤ w - (gdiOf ch w).sub.1
    omega
  · show w - (gdiOf ch w).sub.1 ≤ (gdiOf ch w).sub.2 - (gdiOf ch w).sub.1
    rw [egdi]
    omega

theorem ChainFrom_cons {g : Int} {v : VC} {r : List VC} :
    ChainFrom g (v :: r) ↔ v.gi = g ∧ v.Wf ∧ ChainFrom v.go r := Iff.rfl

theorem mi_full_eq (ch : MIChains) :
    miFullChain ch = (ch.mfccStage :: ch.midStages) ++ ch.grccStages := rfl

/-- Bounds of the three `MfccInverter` trim tensors, for a well-formed chain
and a nonnegative window. -/
theorem mi_trim_bounds {ch : MIChains} {w : Int}
    (hch : ChainFrom 1 (miFullChain ch)) (hg : ch.grccStages ≠ []) (hw : 0 ≤ w) :
    (0 ≤ (MfccInverter.init_geometry ch w).trim_dec_in.1 ∧
      (MfccInverter.init_geometry ch w).trim_dec_in.1 ≤
        (MfccInverter.init_geometry ch w).trim_dec_in.2 ∧
      (MfccInverter.init_geometry ch w).trim_dec_in.2 ≤
        (MfccInverter.init_geometry ch w).enc_in_len) ∧
    (0 ≤ (MfccInverter.init_geometry ch w).trim_ups_out.1 ∧
      (MfccInverter.init_geometry ch w).trim_ups_out.1 ≤
        (MfccInverter.init_geometry ch w).trim_ups_out.2 ∧
      (MfccInverter.init_geometry ch w).trim_ups_out.2 ≤ (miLcOut ch w).sub_length) ∧
    (0 ≤ (MfccInverter.init_geometry ch w).trim_dec_out.1 ∧
      (MfccInverter.init_geometry ch w).trim_dec_out.1 ≤
        (MfccInverter.init_geometry ch w).trim_dec_out.2 ∧
      (MfccInverter.init_geometry ch w).trim_dec_out.2 ≤
        (MfccInverter.init_geometry ch w).dec_in_len) := by
  rw [mi_full_eq] at hch
  obtain ⟨hhead, hgrcc⟩ := chainFrom_append.mp hch
  have hmid : ChainFrom ch.mfccStage.go ch.midStages := (ChainFrom_cons.mp hhead).2.2
  have h1 := bwdWalk_within hgrcc ((0 : Int), w)
  have h1a : (bwdWalk ch.grccStages ((0 : Int), w)).1 ≤ 0 := h1.1
  have h1b : w ≤ (bwdWalk ch.grccStages ((0 : Int), w)).2 := h1.2
  have halign := bwdWalk_aligned hgrcc hg ((0 : Int), w)
  have h2 := bwdWalk_within hhead (bwdWalk ch.grccStages ((0 : Int), w))
  have h3 := fwdWalk_bwdWalk hmid halign.1 halign.2
  have edi : ((compute_inputs (miFullChain ch) (gdoOf w)).getD
        (1 + ch.midStages.length) (gdoOf w)).sub
      = bwdWalk ch.grccStages ((0 : Int), w) := by
    rw [mi_gdi_eq, input_range_sub]
    rfl
  have ewi : ((compute_inputs (miFullChain ch) (gdoOf w)).getD 0 (gdoOf w)).sub
      = bwdWalk (ch.mfccStage :: ch.midStages)
          (bwdWalk ch.grccStages ((0 : Int), w)) := by
    rw [compute_inputs_getD]
    show (input_range (miFullChain ch) (gdoOf w)).sub = _
    rw [input_range_sub, mi_full_eq, bwdWalk_append]
    rfl
  have elc : (miLcOut ch w).sub
      = fwdWalk ch.midStages
          (bwdWalk ch.midStages (bwdWalk ch.grccStages ((0 : Int), w))) := by
    show (output_range ch.midStages
        (input_range (ch.midStages ++ ch.grccStages) (gdoOf w))).sub = _
    rw [output_range_sub, input_range_sub, bwdWalk_append]
    rfl
  refine ⟨⟨?_, ?_, ?_⟩, ⟨?_, ?_, ?_⟩, ⟨?_, ?_, ?_⟩⟩
  · show 0 ≤ ((compute_inputs (miFullChain ch) (gdoOf w)).getD
        (1 + ch.midStages.length) (gdoOf w)).sub.1
      - ((compute_inputs (miFullChain ch) (gdoOf w)).getD 0 (gdoOf w)).sub.1
    rw [edi, ewi]
    have := h2.1
    omega
  · show ((compute_inputs (miFullChain ch) (gdoOf w)).getD
        (1 + ch.midStages.length) (gdoOf w)).sub.1
      - ((compute_inputs (miFullChain ch) (gdoOf w)).getD 0 (gdoOf w)).sub.1
      ≤ ((compute_inputs (miFullChain ch) (gdoOf w)).getD
        (1 + ch.midStages.length) (gdoOf w)).sub.2
      - ((compute_inputs (miFullChain ch) (gdoOf w)).getD 0 (gdoOf w)).sub.1
    rw [edi, ewi]
    omega
  · show ((compute_inputs (miFullChain ch) (gdoOf w)).getD
        (1 + ch.midStages.length) (gdoOf w)).sub.2
      - ((compute_inputs (miFullChain ch) (gdoOf w)).getD 0 (gdoOf w)).sub.1
      ≤ ((compute_inputs (miFullChain ch) (gdoOf w)).getD 0 (gdoOf w)).sub.2
      - ((compute_inputs (miFullChain ch) (gdoOf w)).getD 0 (gdoOf w)).sub.1
    rw [edi, ewi]
    have := h2.2
    omega
  · show (0 : Int) ≤ 0
    exact le_refl 0
  · show (0 : Int) ≤ ((compute_inputs (miFullChain ch) (gdoOf w)).getD
        (1 + ch.midStages.length) (gdoOf w)).sub.2
      - ((compute_inputs (miFullChain ch) (gdoOf w)).getD
        (1 + ch.midStages.length) (gdoOf w)).sub.1
    rw [edi]
    omega
  · show ((compute_inputs (miFullChain ch) (gdoOf w)).getD
        (1 + ch.midStages.length) (gdoOf w)).sub.2
      - ((compute_inputs (miFullChain ch) (gdoOf w)).getD
        (1 + ch.midStages.length) (gdoOf w)).sub.1
      ≤ (miLcOut ch w).sub.2 - (miLcOut ch w).sub.1
    rw [edi, elc]
    have ha := h3.1
    have hb := h3.2
    omega
  · show 0 ≤ 0 - ((compute_inputs (miFullChain ch) (gdoOf w)).getD
        (1 + ch.midStages.length) (gdoOf w)).sub.1
    rw [edi]
    omega
  · show 0 - ((compute_inputs (miFullChain ch) (gdoOf w)).getD
        (1 + ch.midStages.length) (gdoOf w)).sub.1
      ≤ w - ((compute_inputs (miFullChain ch) (gdoOf w)).getD
        (1 + ch.midStages.length) (gdoOf w)).sub.1
    omega
  · show w - ((compute_inputs (miFullChain ch) (gdoOf w)).getD
        (1 + ch.midStages.length) (gdoOf w)).sub.1
      ≤ ((compute_inputs (miFullChain ch) (gdoOf w)).getD
        (1 + ch.midStages.length) (gdoOf w)).sub.2
      - ((compute_inputs (miFullChain ch) (gdoOf w)).getD
        (1 + ch.midStages.length) (gdoOf w)).sub.1
    rw [edi]
    omega

/-- C1: after `_init_geometry(batch_win_size)` completes on an `AutoEncoder`
or an `MfccInverter` (with a well-formed, linked VC chain at unit root grid,
a nonempty gated-residual stack, and a nonnegative window), each trim tensor
(`trim_dec_in`, `trim_ups_out`, `trim_dec_out`) satisfies
`0 ≤ start ≤ end ≤ produced_length`, where `produced_length` is the length of
the tensor that trim is meant to slice: `enc_in_len` (length of
`wav_enc_input`) for `trim_dec_in`, the upsampled local-conditioning range
length for `trim_ups_out`, and `dec_in_len` (length of `wav_dec_input`) for
`trim_dec_out`. -/
theorem C1_trim_tensors_in_bounds
    (chA : AEChains) (chM : MIChains) (wA wM : Int)
    (hA : ChainFrom 1 (aeFullChain chA)) (hAg : chA.grccStages ≠ []) (hwA : 0 ≤ wA)
    (hM : ChainFrom 1 (miFullChain chM)) (hMg : chM.grccStages ≠ []) (hwM : 0 ≤ wM) :
    ((0 ≤ (AutoEncoder.init_geometry chA wA).trim_dec_in.1 ∧
      (AutoEncoder.init_geometry chA wA).trim_dec_in.1 ≤
        (AutoEncoder.init_geometry chA wA).trim_dec_in.2 ∧
      (AutoEncoder.init_geometry chA wA).trim_dec_in.2 ≤
        (AutoEncoder.init_geometry chA wA).enc_in_len) ∧
    (0 ≤ (AutoEncoder.init_geometry chA wA).trim_ups_out.1 ∧
      (AutoEncoder.init_geometry chA wA).trim_ups_out.1 ≤
        (AutoEncoder.init_geometry chA wA).trim_ups_out.2 ∧
      (AutoEncoder.init_geometry chA wA).trim_ups_out.2 ≤ (guoOf chA wA).sub_length) ∧
    (0 ≤ (AutoEncoder.init_geometry chA wA).trim_dec_out.1 ∧
      (AutoEncoder.init_geometry chA wA).trim_dec_out.1 ≤
        (AutoEncoder.init_geometry chA wA).trim_dec_out.2 ∧
      (AutoEncoder.init_geometry chA wA).trim_dec_out.2 ≤
        (AutoEncoder.init_geometry chA wA).dec_in_len)) ∧
    ((0 ≤ (MfccInverter.init_geometry chM wM).trim_dec_in.1 ∧
      (MfccInverter.init_geometry chM wM).trim_dec_in.1 ≤
        (MfccInverter.init_geometry chM wM).trim_dec_in.2 ∧
      (MfccInverter.init_geometry chM wM).trim_dec_in.2 ≤
        (MfccInverter.init_geometry chM wM).enc_in_len) ∧
    (0 ≤ (MfccInverter.init_geometry chM wM).trim_ups_out.1 ∧
      (MfccInverter.init_geometry chM wM).trim_ups_out.1 ≤
        (MfccInverter.init_geometry chM wM).trim_ups_out.2 ∧
      (MfccInverter.init_geometry chM wM).trim_ups_out.2 ≤ (miLcOut chM wM).sub_length) ∧
    (0 ≤ (MfccInverter.init_geometry chM wM).trim_dec_out.1 ∧
      (MfccInverter.init_geometry chM wM).trim_dec_out.1 ≤
        (MfccInverter.init_geometry chM wM).trim_dec_out.2 ∧
      (MfccInverter.init_geometry chM wM).trim_dec_out.2 ≤
        (MfccInverter.init_geometry chM wM).dec_in_len)) :=
  ⟨ae_trim_bounds hA hAg hwA, mi_trim_bounds hM hMg hwM⟩

/-- Witness for C1 at a concrete topology: an MFCC stage (wings 1/1, stride
2), one 2x upsampling stage and one causal unit-stride stage, with window 4. -/
theorem C1_trim_tensors_in_bounds_witness :
    ChainFrom 1 (aeFullChain ⟨⟨1, 1, 1, 2⟩, [], [⟨0, 0, 2, 1⟩], [⟨1, 0, 1, 1⟩]⟩) ∧
    ChainFrom 1 (miFullChain ⟨⟨1, 1, 1, 2⟩, [⟨0, 0, 2, 1⟩], [⟨1, 0, 1, 1⟩]⟩) ∧
    (0 ≤ (AutoEncoder.init_geometry ⟨⟨1, 1, 1, 2⟩, [], [⟨0, 0, 2, 1⟩], [⟨1, 0, 1, 1⟩]⟩ 4).trim_dec_in.1 ∧
      (AutoEncoder.init_geometry ⟨⟨1, 1, 1, 2⟩, [], [⟨0, 0, 2, 1⟩], [⟨1, 0, 1, 1⟩]⟩ 4).trim_dec_in.1 ≤
        (AutoEncoder.init_geometry ⟨⟨1, 1, 1, 2⟩, [], [⟨0, 0, 2, 1⟩], [⟨1, 0, 1, 1⟩]⟩ 4).trim_dec_in.2 ∧
      (AutoEncoder.init_geometry ⟨⟨1, 1, 1, 2⟩, [], [⟨0, 0, 2, 1⟩], [⟨1, 0, 1, 1⟩]⟩ 4).trim_dec_in.2 ≤
        (AutoEncoder.init_geometry ⟨⟨1, 1, 1, 2⟩, [], [⟨0, 0, 2, 1⟩], [⟨1, 0, 1, 1⟩]⟩ 4).enc_in_len) ∧
    (0 ≤ (MfccInverter.init_geometry ⟨⟨1, 1, 1, 2⟩, [⟨0, 0, 2, 1⟩], [⟨1, 0, 1, 1⟩]⟩ 4).trim_dec_out.1 ∧
      (MfccInverter.init_geometry ⟨⟨1, 1, 1, 2⟩, [⟨0, 0, 2, 1⟩], [⟨1, 0, 1, 1⟩]⟩ 4).trim_dec_out.2 ≤
        (MfccInverter.init_geometry ⟨⟨1, 1, 1, 2⟩, [⟨0, 0, 2, 1⟩], [⟨1, 0, 1, 1⟩]⟩ 4).dec_in_len) := by
  have hA : ChainFrom 1 (aeFullChain ⟨⟨1, 1, 1, 2⟩, [], [⟨0, 0, 2, 1⟩], [⟨1, 0, 1, 1⟩]⟩) := by
    norm_num [aeFullChain, ChainFrom, VC.Wf]
  have hM : ChainFrom 1 (miFullChain ⟨⟨1, 1, 1, 2⟩, [⟨0, 0, 2, 1⟩], [⟨1, 0, 1, 1⟩]⟩) := by
    norm_num [miFullChain, ChainFrom, VC.Wf]
  have h := C1_trim_tensors_in_bounds
    ⟨⟨1, 1, 1, 2⟩, [], [⟨0, 0, 2, 1⟩], [⟨1, 0, 1, 1⟩]⟩
    ⟨⟨1, 1, 1, 2⟩, [⟨0, 0, 2, 1⟩], [⟨1, 0, 1, 1⟩]⟩ 4 4
    hA (by simp) (by norm_num) hM (by simp) (by norm_num)
  exact ⟨hA, hM, h.1.1, h.2.2.2.1, h.2.2.2.2.2⟩

/-- C2: for every model instance and window size, running `_init_geometry`
twice in succession with the same window size leaves exactly the state (all
derived lengths and all trim tensors, plus the inverter's stored per-node
input ranges) of running it once: the computation reads only the immutable
chain topology and the window size. -/
theorem C2_init_geometry_idempotent (mA : AEState) (mM : MIState) (w : Int) :
    AutoEncoder.updateGeometry (AutoEncoder.updateGeometry mA w) w
      = AutoEncoder.updateGeometry mA w ∧
    MfccInverter.updateGeometry (MfccInverter.updateGeometry mM w) w
      = MfccInverter.updateGeometry mM w :=
  ⟨rfl, rfl⟩

/-- C3: `_init_geometry` begins by constructing the GridRange whose
`lower_bound` is `(0, 100000)`, whose `sub` is `(0, w)` and whose stride is 1
(autoencoder_model.py line 122, mfcc_inverter.py line 46), and that GridRange
is the desired-output argument handed to the geometry resolver
(`input_range` at lines 123-125, `compute_inputs` at line 48), whose results
feed every stored length and trim. -/
theorem C3_desired_output_gridrange (ch : AEChains) (chM : MIChains) (w : Int) :
    gdoOf w = GridRange.mk (0, 100000) (0, w) 1 ∧
    gdiOf ch w = input_range ch.grccStages (GridRange.mk (0, 100000) (0, w) 1) ∧
    geiOf ch w = input_range (aeFullChain ch) (GridRange.mk (0, 100000) (0, w) 1) ∧
    gmiOf ch w = input_range (ch.encStages ++ ch.upsStages ++ ch.grccStages)
      (GridRange.mk (0, 100000) (0, w) 1) ∧
    (AutoEncoder.init_geometry ch w).dec_in_len = (gdiOf ch w).sub_length ∧
    (MfccInverter.init_geometry chM w).dec_in_len
      = ((compute_inputs (miFullChain chM) (GridRange.mk (0, 100000) (0, w) 1)).getD
          (1 + chM.midStages.length) (GridRange.mk (0, 100000) (0, w) 1)).sub_length :=
  ⟨rfl, rfl, rfl, rfl, rfl, rfl⟩

/-- C8: after `_init_geometry(batch_win_size)` on either model, the span of
`trim_dec_out` equals `batch_win_size` and the span of `trim_dec_in` equals
the stored decoder input length `dec_in_len`. -/
theorem C8_trim_spans (ch : AEChains) (chM : MIChains) (w : Int) :
    ((AutoEncoder.init_geometry ch w).trim_dec_out.2
      - (AutoEncoder.init_geometry ch w).trim_dec_out.1 = w) ∧
    ((AutoEncoder.init_geometry ch w).trim_dec_in.2
      - (AutoEncoder.init_geometry ch w).trim_dec_in.1
      = (AutoEncoder.init_geometry ch w).dec_in_len) ∧
    ((MfccInverter.init_geometry chM w).trim_dec_out.2
      - (MfccInverter.init_geometry chM w).trim_dec_out.1 = w) ∧
    ((MfccInverter.init_geometry chM w).trim_dec_in.2
      - (MfccInverter.init_geometry chM w).trim_dec_in.1
      = (MfccInverter.init_geometry chM w).dec_in_len) := by
  refine ⟨?_, ?_, ?_, ?_⟩
  · show (w - (gdiOf ch w).sub.1) - (0 - (gdiOf ch w).sub.1) = w
    ring
  · show ((gdiOf ch w).sub.2 - (geiOf ch w).sub.1)
      - ((gdiOf ch w).sub.1 - (geiOf ch w).sub.1)
      = (gdiOf ch w).sub.2 - (gdiOf ch w).sub.1
    ring
  · show (w - ((compute_inputs (miFullChain chM) (gdoOf w)).getD
        (1 + chM.midStages.length) (gdoOf w)).sub.1)
      - (0 - ((compute_inputs (miFullChain chM) (gdoOf w)).getD
        (1 + chM.midStages.length) (gdoOf w)).sub.1) = w
    ring
  · show (((compute_inputs (miFullChain chM) (gdoOf w)).getD
        (1 + chM.midStages.length) (gdoOf w)).sub.2
      - ((compute_inputs (miFullChain chM) (gdoOf w)).getD 0 (gdoOf w)).sub.1)
      - (((compute_inputs (miFullChain chM) (gdoOf w)).getD
        (1 + chM.midStages.length) (gdoOf w)).sub.1
      - ((compute_inputs (miFullChain chM) (gdoOf w)).getD 0 (gdoOf w)).sub.1)
      = ((compute_inputs (miFullChain chM) (gdoOf w)).getD
        (1 + chM.midStages.length) (gdoOf w)).sub.2
      - ((compute_inputs (miFullChain chM) (gdoOf w)).getD
        (1 + chM.midStages.length) (gdoOf w)).sub.1
    ring

/-- C4 (evidence of the code bug): for a bottleneck type outside
{vqvae, vqvae-ema, vae, ae}, `AutoEncoder._initialize` reaches
`raise InvalidArgument('bn_type must be one of "ae", "vae", or "vqvae"')`
(autoencoder_model.py line 83), but `InvalidArgument` is bound nowhere in the
module and is not a builtin, so Python raises `NameError` instead of a
configuration error identifying the invalid bottleneck type; no model is
produced. -/
theorem C4_unknown_bn_type_name_error :
    selectBottleneck "transformer" = .error (.nameError "InvalidArgument") ∧
    ∀ b : Bottleneck, selectBottleneck "transformer" ≠ .ok b := by
  have h0 : selectBottleneck "transformer"
      = .error (.nameError "InvalidArgument") := by
    simp [selectBottleneck]
  refine ⟨h0, ?_⟩
  intro b h
  rw [h0] at h
  exact Except.noConfusion h

/-- C5: `init_codebook` raises the usage error exactly when the bottleneck
type is neither `vqvae` nor `vqvae-ema`; the check precedes any read of the
data source, so on an incompatible type the outcome is the same `raised`
result for every data source, sample count, k-means function and fuel — no
data is consumed and no updated model is produced (the exception leaves the
caller's model untouched). -/
theorem C5_init_codebook_usage_error {μ : Type} (m : AEModel μ) (src : Nat → μ)
    (n : Nat) (kmeansF : List (List Rat) → Nat → List (List Rat)) (fuel : Nat) :
    (init_codebook m src n kmeansF fuel
        = .raised (.runtimeError "init_vq_embed only applies to the vqvae model type")
      ↔ ¬(m.bn_type = "vqvae" ∨ m.bn_type = "vqvae-ema")) ∧
    (¬(m.bn_type = "vqvae" ∨ m.bn_type = "vqvae-ema") →
      ∀ (src' : Nat → μ) (n' : Nat)
        (kmeansF' : List (List Rat) → Nat → List (List Rat)) (fuel' : Nat),
        init_codebook m src' n' kmeansF' fuel'
          = init_codebook m src n kmeansF fuel) := by
  by_cases hb : m.bn_type = "vqvae" ∨ m.bn_type = "vqvae-ema"
  · have hg : ¬(m.bn_type ≠ "vqvae" ∧ m.bn_type ≠ "vqvae-ema") := by tauto
    have hne : ∀ (src' : Nat → μ) (n' : Nat)
        (kmeansF' : List (List Rat) → Nat → List (List Rat)) (fuel' : Nat),
        init_codebook m src' n' kmeansF' fuel'
          ≠ .raised (.runtimeError "init_vq_embed only applies to the vqvae model type") := by
      intro src' n' kmeansF' fuel' h
      unfold init_codebook at h
      rw [if_neg hg] at h
      rcases hloop : codebookLoop m.encRows src' n' fuel' 0 [] with _ | samples
      · rw [hloop] at h
        exact RunResult.noConfusion h
      · rw [hloop] at h
        by_cases he : m.bn_type = "vqvae-ema" <;> simp [he] at h
    exact ⟨⟨fun h => absurd h (hne src n kmeansF fuel), fun h => absurd hb h⟩,
      fun h => absurd hb h⟩
  · have hg : m.bn_type ≠ "vqvae" ∧ m.bn_type ≠ "vqvae-ema" := by tauto
    refine ⟨⟨fun _ => hb, fun _ => ?_⟩, fun _ src' n' kmeansF' fuel' => ?_⟩
    · unfold init_codebook
      rw [if_pos hg]
    · simp only [init_codebook, if_pos hg]

/-- The sampling loop terminates with exactly `n` rows collected when every
batch contributes at least one row: each iteration below the target adds
`min (n - e, rows) ≥ 1` rows and never overshoots `n`, so `n` iterations of
fuel always suffice. -/
theorem codebookLoop_term {μ : Type} (f : μ → List (List Rat)) (src : Nat → μ)
    (n : Nat) (hpos : ∀ j, 0 < (f (src j)).length) :
    ∀ (fuel i : Nat) (acc : List (List Rat)),
      acc.length ≤ n → n - acc.length ≤ fuel →
      ∃ s, codebookLoop f src n fuel i acc = some s ∧ s.length = n := by
  intro fuel
  induction fuel with
  | zero =>
    intro i acc hle hfuel
    have heq : acc.length = n := by omega
    refine ⟨acc, ?_, heq⟩
    simp only [codebookLoop]
    rw [if_pos heq]
  | succ fuel' ih =>
    intro i acc hle hfuel
    by_cases heq : acc.length = n
    · refine ⟨acc, ?_, heq⟩
      simp only [codebookLoop]
      rw [if_pos heq]
    · have hlt : acc.length < n := lt_of_le_of_ne hle heq
      have hz := hpos i
      have hlen : (acc ++ (f (src i)).take
            (min (n - acc.length) (f (src i)).length)).length
          = acc.length + min (n - acc.length) (f (src i)).length := by
        rw [List.length_append, List.length_take]
        omega
      obtain ⟨s, hs, hsl⟩ := ih (i + 1)
        (acc ++ (f (src i)).take (min (n - acc.length) (f (src i)).length))
        (by rw [hlen]; omega) (by rw [hlen]; omega)
      refine ⟨s, ?_, hsl⟩
      simp only [codebookLoop]
      rw [if_neg heq]
      exact hs

/-- With a data source yielding only empty batches the loop makes no
progress, so no amount of fuel reaches the target. -/
theorem codebookLoop_stuck {μ : Type} (src : Nat → μ) (n : Nat) :
    ∀ (fuel i : Nat) (acc : List (List Rat)), acc.length < n →
      codebookLoop (fun _ => ([] : List (List Rat))) src n fuel i acc = none := by
  intro fuel
  induction fuel with
  | zero =>
    intro i acc hlt
    simp only [codebookLoop]
    rw [if_neg (by omega : ¬acc.length = n)]
  | succ fuel' ih =>
    intro i acc hlt
    simp only [codebookLoop]
    rw [if_neg (by omega : ¬acc.length = n)]
    simpa using ih (i + 1) acc hlt

/-- C10: under the precondition that every batch drawn from the data source
contributes at least one encoder-output row, the sampling loop of
`init_codebook` terminates (fuel `n_samples` suffices) and accumulates
exactly `n_samples` rows — the counter never exceeds `n_samples` because
each step adds `min (n_samples - e, rows)`; without that precondition (a
data source whose batches yield zero rows) the loop never terminates: no
fuel bound makes it finish. -/
theorem C10_codebook_sampling_loop (μ : Type) (f : μ → List (List Rat))
    (src : Nat → μ) (n : Nat) :
    ((∀ j, 0 < (f (src j)).length) →
      ∃ s, codebookLoop f src n n 0 [] = some s ∧ s.length = n) ∧
    (0 < n → ∀ fuel i,
      codebookLoop (fun _ => ([] : List (List Rat))) src n fuel i [] = none) := by
  constructor
  · intro hpos
    exact codebookLoop_term f src n hpos n 0 [] (by simp) (by simp)
  · intro hn fuel i
    exact codebookLoop_stuck src n fuel i [] (by simpa using hn)

/-- Witness for C10: with unit batches of one row each, two rows are
collected with fuel 2; with empty batches and a positive target, the loop
returns no result for fuel 5. -/
theorem C10_codebook_sampling_loop_witness :
    (∃ s, codebookLoop (fun _ : Unit => [[(1 : Rat)]]) (fun _ => ()) 2 2 0 []
        = some s ∧ s.length = 2) ∧
    codebookLoop (fun _ : Unit => ([] : List (List Rat))) (fun _ => ()) 2 5 0 []
      = none :=
  ⟨(C10_codebook_sampling_loop Unit (fun _ => [[(1 : Rat)]]) (fun _ => ()) 2).1
      (fun j => by simp),
    (C10_codebook_sampling_loop Unit (fun _ => [[(1 : Rat)]]) (fun _ => ()) 2).2
      (by norm_num) 5 0⟩

/-- Witness for C5: a model with the `vae` bottleneck raises the usage
error. -/
theorem C5_init_codebook_usage_error_witness :
    init_codebook (μ := Unit) ⟨"vae", [[0]], [], [], [], 0, fun _ => [[1]]⟩
      (fun _ => ()) 1 (fun s _ => s) 3
      = .raised (.runtimeError "init_vq_embed only applies to the vqvae model type") :=
  (C5_init_codebook_usage_error ⟨"vae", [[0]], [], [], [], 0, fun _ => [[1]]⟩
    (fun _ => ()) 1 (fun s _ => s) 3).1.mpr (by simp)

/-- On a VQ bottleneck whose sampling loop succeeds with rows `S`,
`init_codebook` returns a model whose codebook is exactly
`kmeansF S n_codes` where `n_codes` is the preconfigured codebook row
count. -/
theorem init_codebook_ok {μ : Type} (m : AEModel μ) (src : Nat → μ) (n : Nat)
    (kmeansF : List (List Rat) → Nat → List (List Rat)) (fuel : Nat)
    (S : List (List Rat))
    (hty : m.bn_type = "vqvae" ∨ m.bn_type = "vqvae-ema")
    (hloop : codebookLoop m.encRows src n fuel 0 [] = some S) :
    ∃ m', init_codebook m src n kmeansF fuel = .ok m' ∧
      m'.emb = kmeansF S m.emb.length := by
  have hg : ¬(m.bn_type ≠ "vqvae" ∧ m.bn_type ≠ "vqvae-ema") := by tauto
  unfold init_codebook
  rw [if_neg hg, hloop]
  dsimp only
  by_cases he : m.bn_type = "vqvae-ema"
  · exact ⟨_, by rw [if_pos he], rfl⟩
  · exact ⟨_, by rw [if_neg he], rfl⟩

/-- C6: after `init_codebook` succeeds on a VQ bottleneck, the codebook has
shape `(n_codes, k)` — the shape of the preconfigured codebook tensor
`bn.emb` — given scipy k-means's contract of returning `n_codes` centroids
of the observation width; and the codebook value is a function only of the
sampled encoder-output rows and `n_codes`: any second model with the same
codebook row count whose (deterministic, seeded) sampling yields the same
rows `S` receives an identical codebook, regardless of its data source,
encoder or any other field. -/
theorem C6_codebook_shape_and_purity {μ ν : Type}
    (m : AEModel μ) (m2 : AEModel ν) (src : Nat → μ) (src2 : Nat → ν) (n : Nat)
    (kmeansF : List (List Rat) → Nat → List (List Rat))
    (fuel fuel2 : Nat) (S : List (List Rat)) (k : Nat)
    (hty : m.bn_type = "vqvae" ∨ m.bn_type = "vqvae-ema")
    (hty2 : m2.bn_type = "vqvae" ∨ m2.bn_type = "vqvae-ema")
    (hloop : codebookLoop m.encRows src n fuel 0 [] = some S)
    (hloop2 : codebookLoop m2.encRows src2 n fuel2 0 [] = some S)
    (hpre : m.emb.length > 0 ∧ ∀ r ∈ m.emb, r.length = k)
    (hshape : (kmeansF S m.emb.length).length = m.emb.length ∧
      ∀ r ∈ kmeansF S m.emb.length, r.length = k)
    (hn2 : m2.emb.length = m.emb.length) :
    ∃ m' m2', init_codebook m src n kmeansF fuel = .ok m' ∧
      init_codebook m2 src2 n kmeansF fuel2 = .ok m2' ∧
      m'.emb.length = m.emb.length ∧ (∀ r ∈ m'.emb, r.length = k) ∧
      (∀ r ∈ m.emb, r.length = k) ∧
      m2'.emb = m'.emb := by
  obtain ⟨m', hm', hemb⟩ := init_codebook_ok m src n kmeansF fuel S hty hloop
  obtain ⟨m2', hm2', hemb2⟩ := init_codebook_ok m2 src2 n kmeansF fuel2 S hty2 hloop2
  refine ⟨m', m2', hm', hm2', ?_, ?_, hpre.2, ?_⟩
  · rw [hemb]
    exact hshape.1
  · rw [hemb]
    exact hshape.2
  · rw [hemb, hemb2, hn2]

/-- Witness for C6 at a concrete model: two codebook rows of width one, a
data source of single-row batches, and a take-based k-means stub meeting the
shape contract. -/
theorem C6_codebook_shape_and_purity_witness :
    ∃ m' m2', init_codebook (μ := Unit)
        ⟨"vqvae", [[0], [0]], [], [], [], 0, fun _ => [[1]]⟩
        (fun _ => ()) 2 (fun s nc => s.take nc) 2 = .ok m' ∧
      init_codebook (μ := Unit)
        ⟨"vqvae", [[0], [0]], [], [], [], 0, fun _ => [[1]]⟩
        (fun _ => ()) 2 (fun s nc => s.take nc) 2 = .ok m2' ∧
      m'.emb.length = ([[(0 : Rat)], [0]] : List (List Rat)).length ∧
      (∀ r ∈ m'.emb, r.length = 1) ∧
      (∀ r ∈ ([[(0 : Rat)], [0]] : List (List Rat)), r.length = 1) ∧
      m2'.emb = m'.emb := by
  have hloop : codebookLoop
      (AEModel.encRows (μ := Unit) ⟨"vqvae", [[0], [0]], [], [], [], 0, fun _ => [[1]]⟩)
      (fun _ => ()) 2 2 0 [] = some [[(1 : Rat)], [1]] := by
    simp [codebookLoop]
  exact C6_codebook_shape_and_purity
    ⟨"vqvae", [[0], [0]], [], [], [], 0, fun _ => [[1]]⟩
    ⟨"vqvae", [[0], [0]], [], [], [], 0, fun _ => [[1]]⟩
    (fun _ => ()) (fun _ => ()) 2 (fun s nc => s.take nc) 2 2
    [[(1 : Rat)], [1]] 1
    (Or.inl rfl) (Or.inl rfl) hloop hloop
    ⟨by simp, by simp⟩ ⟨by simp, by simp⟩ rfl

/-- C7: for both models, `__getstate__` returns a state holding only the
`init_args` configuration (no learned parameters), and `__setstate__`
rebuilds the model by replaying `_initialize` on that configuration: the
rebuilt components are `initF init_args`, fresh rather than restored, so two
live models with equal `init_args` but different learned components
deserialize to identical models. -/
theorem C7_serialization_only_init_args
    (σ τ σ2 τ2 : Type) (initF : σ → τ) (initF2 : σ2 → τ2)
    (m m2 : AEFull σ τ) (mi mi2 : MIFull σ2 τ2) :
    (AutoEncoder.getstate m = ⟨m.init_args⟩ ∧
      AutoEncoder.setstate initF (AutoEncoder.getstate m)
        = ⟨m.init_args, initF m.init_args⟩ ∧
      (m.init_args = m2.init_args →
        AutoEncoder.setstate initF (AutoEncoder.getstate m)
          = AutoEncoder.setstate initF (AutoEncoder.getstate m2))) ∧
    (MfccInverter.getstate mi = ⟨mi.init_args⟩ ∧
      MfccInverter.setstate initF2 (MfccInverter.getstate mi)
        = ⟨mi.init_args, initF2 mi.init_args⟩ ∧
      (mi.init_args = mi2.init_args →
        MfccInverter.setstate initF2 (MfccInverter.getstate mi)
          = MfccInverter.setstate initF2 (MfccInverter.getstate mi2))) := by
  refine ⟨⟨rfl, rfl, fun h => ?_⟩, ⟨rfl, rfl, fun h => ?_⟩⟩
  · simp [AutoEncoder.setstate, AutoEncoder.getstate, h]
  · simp [MfccInverter.setstate, MfccInverter.getstate, h]

/-- Witness for C7: two autoencoders and two inverters sharing `init_args`
but with different learned components deserialize identically. -/
theorem C7_serialization_only_init_args_witness :
    AutoEncoder.getstate (⟨7, 5⟩ : AEFull Nat Nat) = ⟨7⟩ ∧
    (AutoEncoder.setstate (fun a => a + 1) (AutoEncoder.getstate (⟨7, 5⟩ : AEFull Nat Nat))
      = AutoEncoder.setstate (fun a => a + 1) (AutoEncoder.getstate (⟨7, 99⟩ : AEFull Nat Nat))) ∧
    (MfccInverter.setstate (fun a => a + 1) (MfccInverter.getstate (⟨3, 4⟩ : MIFull Nat Nat))
      = MfccInverter.setstate (fun a => a + 1) (MfccInverter.getstate (⟨3, 12⟩ : MIFull Nat Nat))) := by
  have h := C7_serialization_only_init_args Nat Nat Nat Nat (fun a => a + 1)
    (fun a => a + 1) ⟨7, 5⟩ ⟨7, 99⟩ ⟨3, 4⟩ ⟨3, 12⟩
  exact ⟨h.1.1, h.1.2.2 rfl, h.2.2.2 rfl⟩

/-- Through a unit-stride stage the resolver round trip is exact. -/
theorem unit_exact (v : VC) (h1 : v.gi = 1) (h2 : v.go = 1) (s : Int × Int) :
    fwdSub v (bwdSub v s) = s := by
  have hf : ∀ x : Int, floorAlign 1 x = x := fun x => floorAlign_of_dvd (one_dvd x)
  have hc : ∀ x : Int, ceilAlign 1 x = x := fun x => ceilAlign_of_dvd (one_dvd x)
  unfold fwdSub bwdSub
  rw [h1, h2]
  simp only [hf, hc]
  rw [Prod.mk.injEq]
  constructor <;> ring

/-- Through a chain of unit-stride stages (such as the gated residual stack)
the resolver round trip is exact: the decoder output range equals the
requested output range. -/
theorem fwdWalk_bwdWalk_unit {c : List VC} (hu : ∀ v ∈ c, v.gi = 1 ∧ v.go = 1)
    (s : Int × Int) : fwdWalk c (bwdWalk c s) = s := by
  induction c with
  | nil => rfl
  | cons v r ih =>
    have hv := hu v (List.mem_cons_self v r)
    have hr : ∀ v' ∈ r, v'.gi = 1 ∧ v'.go = 1 :=
      fun v' h => hu v' (List.mem_cons_of_mem v h)
    show fwdWalk r (fwdSub v (bwdSub v (bwdWalk r s))) = s
    rw [unit_exact v hv.1 hv.2, ih hr]

/-- A chain of unit-stride stages is well formed from the unit grid. -/
theorem chainFrom_unit {c : List VC} (hu : ∀ v ∈ c, v.gi = 1 ∧ v.go = 1) :
    ChainFrom 1 c := by
  induction c with
  | nil => trivial
  | cons v r ih =>
    have hv := hu v (List.mem_cons_self v r)
    refine ⟨hv.1, ?_, ?_⟩
    · unfold VC.Wf
      rw [hv.1, hv.2]
      omega
    · rw [hv.2]
      exact ih (fun v' h => hu v' (List.mem_cons_of_mem v h))

/-- Length bookkeeping of the `(pred, target)` pair: dropping the final
prediction and the first target sample leaves lists of equal length. -/
theorem run_pair_lengths (di : Int × Int) (w : Int) (L q : List Rat)
    (ha : di.1 ≤ 0) (hb : w ≤ di.2) (hw : 0 ≤ w)
    (hL : L.length = (di.2 - di.1).toNat) (hq : q.length = w.toNat) :
    q.dropLast.length
      = (((L.drop (0 - di.1).toNat).take
          ((w - di.1).toNat - (0 - di.1).toNat)).drop 1).length := by
  rw [List.length_dropLast, List.length_drop, List.length_take,
    List.length_drop, hL, hq]
  omega

/-- C9: for every batch, `run(vbatch)` returns a `(pred, target)` pair
shifted by one timestep relative to each other: `pred` is the network output
with its final timestep dropped (`quant[..., :-1]`) and `target` is the
`trim_dec_out` slice of `wav_dec_input` with its first sample dropped
(`wav_batch_out[..., 1:]`); since the gated residual stack is unit-stride,
the batch supplies `dec_in_len` samples, and the network realizes the
resolver's achievable output range, `pred` and `target` have equal
final-dimension length — for both models. -/
theorem C9_run_pred_target_shift
    (chA : AEChains) (wA : Int) (decFA : List (List Rat) → List Rat)
    (oneHotA : Rat → List Rat) (vbA : VBatch)
    (chM : MIChains) (wM : Int) (decFM : List (List Rat) → List Rat)
    (oneHotM : Rat → List Rat) (vbM : VBatch)
    (hwA : 0 ≤ wA) (hunitA : ∀ v ∈ chA.grccStages, v.gi = 1 ∧ v.go = 1)
    (hLA : vbA.wav_dec_input.length
      = (AutoEncoder.init_geometry chA wA).dec_in_len.toNat)
    (hdecA : (decFA (vbA.wav_dec_input.map oneHotA)).length
      = (output_range chA.grccStages (gdiOf chA wA)).sub_length.toNat)
    (hwM : 0 ≤ wM) (hunitM : ∀ v ∈ chM.grccStages, v.gi = 1 ∧ v.go = 1)
    (hLM : vbM.wav_dec_input.length
      = (MfccInverter.init_geometry chM wM).dec_in_len.toNat)
    (hdecM : (decFM (vbM.wav_dec_input.map oneHotM)).length
      = (output_range chM.grccStages
          (input_range chM.grccStages (gdoOf wM))).sub_length.toNat) :
    (AutoEncoder.run (AutoEncoder.init_geometry chA wA) decFA oneHotA vbA
        = ((decFA (vbA.wav_dec_input.map oneHotA)).dropLast,
          ((vbA.wav_dec_input.drop
              (AutoEncoder.init_geometry chA wA).trim_dec_out.1.toNat).take
            ((AutoEncoder.init_geometry chA wA).trim_dec_out.2.toNat
              - (AutoEncoder.init_geometry chA wA).trim_dec_out.1.toNat)).drop 1) ∧
      (AutoEncoder.run (AutoEncoder.init_geometry chA wA) decFA oneHotA vbA).1.length
        = (AutoEncoder.run (AutoEncoder.init_geometry chA wA) decFA oneHotA vbA).2.length) ∧
    (MfccInverter.run (MfccInverter.init_geometry chM wM) decFM oneHotM vbM
        = ((decFM (vbM.wav_dec_input.map oneHotM)).dropLast,
          ((vbM.wav_dec_input.drop
              (MfccInverter.init_geometry chM wM).trim_dec_out.1.toNat).take
            ((MfccInverter.init_geometry chM wM).trim_dec_out.2.toNat
              - (MfccInverter.init_geometry chM wM).trim_dec_out.1.toNat)).drop 1) ∧
      (MfccInverter.run (MfccInverter.init_geometry chM wM) decFM oneHotM vbM).1.length
        = (MfccInverter.run (MfccInverter.init_geometry chM wM) decFM oneHotM vbM).2.length) := by
  have hchA := chainFrom_unit hunitA
  have hchM := chainFrom_unit hunitM
  have h1A := bwdWalk_within hchA ((0 : Int), wA)
  have h1M := bwdWalk_within hchM ((0 : Int), wM)
  have egA : (gdiOf chA wA).sub = bwdWalk chA.grccStages ((0 : Int), wA) :=
    input_range_sub chA.grccStages (gdoOf wA)
  have egM : (input_range chM.grccStages (gdoOf wM)).sub
      = bwdWalk chM.grccStages ((0 : Int), wM) :=
    input_range_sub chM.grccStages (gdoOf wM)
  have houtA : (output_range chA.grccStages (gdiOf chA wA)).sub = ((0 : Int), wA) := by
    show (output_range chA.grccStages
      (input_range chA.grccStages (gdoOf wA))).sub = _
    rw [output_range_sub, input_range_sub]
    exact fwdWalk_bwdWalk_unit hunitA ((0 : Int), wA)
  have houtM : (output_range chM.grccStages
      (input_range chM.grccStages (gdoOf wM))).sub = ((0 : Int), wM) := by
    rw [output_range_sub, input_range_sub]
    exact fwdWalk_bwdWalk_unit hunitM ((0 : Int), wM)
  have hqA : (decFA (vbA.wav_dec_input.map oneHotA)).length = wA.toNat := by
    rw [hdecA]
    unfold GridRange.sub_length
    rw [houtA]
    simp
  have hqM : (decFM (vbM.wav_dec_input.map oneHotM)).length = wM.toNat := by
    rw [hdecM]
    unfold GridRange.sub_length
    rw [houtM]
    simp
  refine ⟨⟨rfl, ?_⟩, ⟨rfl, ?_⟩⟩
  · have ha : (gdiOf chA wA).sub.1 ≤ 0 := by
      rw [egA]
      exact h1A.1
    have hb : wA ≤ (gdiOf chA wA).sub.2 := by
      rw [egA]
      exact h1A.2
    exact run_pair_lengths (gdiOf chA wA).sub wA vbA.wav_dec_input
      (decFA (vbA.wav_dec_input.map oneHotA)) ha hb hwA hLA hqA
  · have emi := mi_gdi_eq chM wM
    have ha : (input_range chM.grccStages (gdoOf wM)).sub.1 ≤ 0 := by
      rw [egM]
      exact h1M.1
    have hb : wM ≤ (input_range chM.grccStages (gdoOf wM)).sub.2 := by
      rw [egM]
      exact h1M.2
    have hLM2 : vbM.wav_dec_input.length
        = ((input_range chM.grccStages (gdoOf wM)).sub.2
          - (input_range chM.grccStages (gdoOf wM)).sub.1).toNat := by
      rw [hLM]
      show (((compute_inputs (miFullChain chM) (gdoOf wM)).getD
          (1 + chM.midStages.length) (gdoOf wM)).sub.2
        - ((compute_inputs (miFullChain chM) (gdoOf wM)).getD
          (1 + chM.midStages.length) (gdoOf wM)).sub.1).toNat = _
      rw [emi]
    show ((decFM (vbM.wav_dec_input.map oneHotM)).dropLast).length
      = (((vbM.wav_dec_input.drop
            ((0 - ((compute_inputs (miFullChain chM) (gdoOf wM)).getD
              (1 + chM.midStages.length) (gdoOf wM)).sub.1).toNat)).take
          ((wM - ((compute_inputs (miFullChain chM) (gdoOf wM)).getD
              (1 + chM.midStages.length) (gdoOf wM)).sub.1).toNat
            - (0 - ((compute_inputs (miFullChain chM) (gdoOf wM)).getD
              (1 + chM.midStages.length) (gdoOf wM)).sub.1).toNat)).drop 1).length
    rw [emi]
    exact run_pair_lengths (input_range chM.grccStages (gdoOf wM)).sub wM
      vbM.wav_dec_input (decFM (vbM.wav_dec_input.map oneHotM)) ha hb hwM hLM2 hqM

/-- Witness for C9: a single causal unit-stride stage as residual stack,
window 3, a four-sample decoder input and a three-sample network output give
equal-length `pred` and `target` on both models. -/
theorem C9_run_pred_target_shift_witness :
    ((AutoEncoder.run
        (AutoEncoder.init_geometry ⟨⟨0, 0, 1, 1⟩, [], [], [⟨1, 0, 1, 1⟩]⟩ 3)
        (fun _ => [0, 0, 0]) (fun x => [x]) ⟨[0, 0, 0, 0], [], 0, []⟩).1.length
      = (AutoEncoder.run
        (AutoEncoder.init_geometry ⟨⟨0, 0, 1, 1⟩, [], [], [⟨1, 0, 1, 1⟩]⟩ 3)
        (fun _ => [0, 0, 0]) (fun x => [x]) ⟨[0, 0, 0, 0], [], 0, []⟩).2.length) ∧
    ((MfccInverter.run
        (MfccInverter.init_geometry ⟨⟨0, 0, 1, 1⟩, [], [⟨1, 0, 1, 1⟩]⟩ 3)
        (fun _ => [0, 0, 0]) (fun x => [x]) ⟨[0, 0, 0, 0], [], 0, []⟩).1.length
      = (MfccInverter.run
        (MfccInverter.init_geometry ⟨⟨0, 0, 1, 1⟩, [], [⟨1, 0, 1, 1⟩]⟩ 3)
        (fun _ => [0, 0, 0]) (fun x => [x]) ⟨[0, 0, 0, 0], [], 0, []⟩).2.length) := by
  have h := C9_run_pred_target_shift
    ⟨⟨0, 0, 1, 1⟩, [], [], [⟨1, 0, 1, 1⟩]⟩ 3 (fun _ => [0, 0, 0]) (fun x => [x])
    ⟨[0, 0, 0, 0], [], 0, []⟩
    ⟨⟨0, 0, 1, 1⟩, [], [⟨1, 0, 1, 1⟩]⟩ 3 (fun _ => [0, 0, 0]) (fun x => [x])
    ⟨[0, 0, 0, 0], [], 0, []⟩
    (by norm_num) (by decide) (by decide) (by decide)
    (by norm_num) (by decide) (by decide) (by decide)
  exact ⟨h.1.2, h.2.2⟩
